import Mathlib

/-!
Shallow embedding of the BeesInATrap combat core (internal/game: bee.go
stats-table version, player.go, game.go mutex/config version).

Go pointers into the hive are modelled by a heap `bees : List Bee` indexed
by natural-number ids; the `Hive` map and the cached `AliveBees` slice hold
ids into that heap.  Randomness (`rng.Float64() < missChance`,
`rng.Intn(n)`) is modelled by oracle parameters: a Boolean miss roll and a
natural number reduced modulo the relevant length, which ranges over
exactly the indices `Intn` can produce.  The buffered damage-event channel
of capacity 10 is modelled by a list `events` together with the
non-blocking send of `BeeTurn` (`select`/`default`, which drops on full).
-/

namespace BeesInATrap

/-- Bee categories, `type BeeType int` with `Queen | Worker | Drone`. -/
inductive BeeType where
  | Queen
  | Worker
  | Drone
deriving DecidableEq, Repr

/-- `BeeStats` from bee.go (stats-table version): starting health, damage
inflicted per attack, damage received per hit. -/
structure BeeStats where
  HP : Int
  Damage : Int
  TakesDamage : Int
deriving DecidableEq, Repr

/-- `BeeStatsTable` from bee.go: Queen {100, 10, 10}, Worker {75, 5, 25},
Drone {60, 1, 30}. -/
def BeeStatsTable : BeeType → BeeStats
  | .Queen => ⟨100, 10, 10⟩
  | .Worker => ⟨75, 5, 25⟩
  | .Drone => ⟨60, 1, 30⟩

/-- `type Bee struct` (stats-table version: no stored alive flag). -/
structure Bee where
  beeType : BeeType
  HP : Int
  MaxHP : Int
  Damage : Int
deriving DecidableEq, Repr

/-- `NewBee` from bee.go: fields initialised from the stats table. -/
def NewBee (t : BeeType) : Bee :=
  { beeType := t
    HP := (BeeStatsTable t).HP
    MaxHP := (BeeStatsTable t).HP
    Damage := (BeeStatsTable t).Damage }

/-- `Bee.IsAlive` from bee.go (stats-table version): `b.HP > 0`, a derived
predicate, not a stored flag. -/
def Bee.IsAlive (b : Bee) : Bool :=
  decide (0 < b.HP)

/-- `Bee.TakeDamage` from bee.go (stats-table version):
`b.HP -= stats.TakesDamage; if b.HP < 0 { b.HP = 0 }`. -/
def Bee.TakeDamage (b : Bee) : Bee :=
  let hp := b.HP - (BeeStatsTable b.beeType).TakesDamage
  if hp < 0 then { b with HP := 0 } else { b with HP := hp }

/-- `type Player struct` from player.go. -/
structure Player where
  HP : Int
  MaxHP : Int
deriving DecidableEq, Repr

/-- `Player.TakeDamage` from player.go:
`p.HP -= damage; if p.HP < 0 { p.HP = 0 }`. -/
def Player.TakeDamage (p : Player) (damage : Int) : Player :=
  let hp := p.HP - damage
  if hp < 0 then { p with HP := 0 } else { p with HP := hp }

/-- `Player.IsAlive` from player.go: `p.HP > 0`. -/
def Player.IsAlive (p : Player) : Bool :=
  decide (0 < p.HP)

/-- `GameConfig` from game.go (the fields the combat core reads; the
float miss chances are replaced by oracle Booleans at each roll, and the
pacing delay is display-only). -/
structure GameConfig where
  PlayerHP : Int
  QueenCount : Nat
  WorkerCount : Nat
  DroneCount : Nat
deriving DecidableEq, Repr

/-- `DefaultConfig` from game.go: player 100 HP, hive 1/5/25. -/
def DefaultConfig : GameConfig :=
  { PlayerHP := 100, QueenCount := 1, WorkerCount := 5, DroneCount := 25 }

/-- Dead placeholder returned when a heap id is out of range; never
reached from a well-formed game (Go pointers cannot dangle). -/
def dummyBee : Bee :=
  { beeType := .Queen, HP := 0, MaxHP := 0, Damage := 0 }

/-- `type Game struct` from game.go.  `bees` is the heap of all bee
records (Go: the pointed-to `Bee` values); `hiveQ`/`hiveW`/`hiveD` are the
`Hive[Queen]`, `Hive[Worker]`, `Hive[Drone]` pointer slices as heap ids;
`aliveBees` is the cached `AliveBees` slice as heap ids; `events` is the
buffer of the `damageEvent` channel (capacity 10). -/
structure Game where
  player : Player
  bees : List Bee
  hiveQ : List Nat
  hiveW : List Nat
  hiveD : List Nat
  aliveBees : List Nat
  turns : Int
  events : List Int
deriving DecidableEq, Repr

/-- Dereference a heap id (a Go `*Bee`). -/
def Game.beeAt (g : Game) (id : Nat) : Bee :=
  (g.bees[id]?).getD dummyBee

/-- `NewGameWithConfig` + `initializeHive` from game.go: queens, then
workers, then drones appended to both the hive groups and the alive
cache; player at `config.PlayerHP`; empty event buffer; zero turns. -/
def NewGameWithConfig (cfg : GameConfig) : Game :=
  let q := cfg.QueenCount
  let w := cfg.WorkerCount
  let d := cfg.DroneCount
  { player := { HP := cfg.PlayerHP, MaxHP := cfg.PlayerHP }
    bees := List.replicate q (NewBee .Queen) ++ List.replicate w (NewBee .Worker)
      ++ List.replicate d (NewBee .Drone)
    hiveQ := List.range q
    hiveW := (List.range w).map (· + q)
    hiveD := (List.range d).map (· + q + w)
    aliveBees := List.range (q + w + d)
    turns := 0
    events := [] }

/-- `NewGame` from game.go: `NewGameWithConfig(DefaultConfig())`. -/
def NewGame : Game :=
  NewGameWithConfig DefaultConfig

/-- `GetAliveBees` / `getAliveBeesUnsafe` from game.go: filter the cached
slice by `IsAlive`, store the filtered slice back into the cache, return
it. -/
def Game.GetAliveBees (g : Game) : List Nat × Game :=
  let aliveList := g.aliveBees.filter (fun id => (g.beeAt id).IsAlive)
  (aliveList, { g with aliveBees := aliveList })

/-- One iteration of the `KillAllBees` loop body:
`if bee.IsAlive() { bee.HP = 0 }` at heap id `id`. -/
def killOne (bs : List Bee) (id : Nat) : List Bee :=
  let b := (bs[id]?).getD dummyBee
  if b.IsAlive then bs.set id { b with HP := 0 } else bs

/-- The `KillAllBees` double loop over every hive group. -/
def killIds (ids : List Nat) (bs : List Bee) : List Bee :=
  ids.foldl killOne bs

/-- `KillAllBees` from game.go: zero the health of every alive bee in
every hive group, then clear the alive cache. -/
def Game.KillAllBees (g : Game) : Game :=
  { g with
    bees := killIds (g.hiveQ ++ g.hiveW ++ g.hiveD) g.bees
    aliveBees := [] }

/-- `IsGameOver` from game.go: player dead, or the alive view (via the
unlocked internal helper) is empty. -/
def Game.IsGameOver (g : Game) : Bool :=
  if g.player.IsAlive then decide ((g.GetAliveBees).1.length = 0) else true

/-- `PlayerAttack` from game.go.  `missRoll` is the oracle for
`rng.Float64() < PlayerMissChance`; `targetIdx` is the oracle for
`rng.Intn(len(aliveBees))`.  On a kill of a Queen-type target,
`KillAllBees` cascades. -/
def Game.PlayerAttack (g : Game) (missRoll : Bool) (targetIdx : Nat) : Game :=
  let res := g.GetAliveBees
  let aliveList := res.1
  let g1 := res.2
  if aliveList.length = 0 then g1
  else if missRoll then g1
  else
    let tid := aliveList.getD (targetIdx % aliveList.length) 0
    let target := g1.beeAt tid
    let target' := target.TakeDamage
    let g2 := { g1 with bees := g1.bees.set tid target' }
    if target'.IsAlive then g2
    else if target.beeType = BeeType.Queen then g2.KillAllBees
    else g2

/-- `PlayerTurn` from game.go: increment the turn counter, then dispatch
`PlayerAttack` when the command is `"hit"`. -/
def Game.PlayerTurn (g : Game) (command : String) (missRoll : Bool)
    (targetIdx : Nat) : Game :=
  let g1 := { g with turns := g.turns + 1 }
  if command == "hit" then g1.PlayerAttack missRoll targetIdx else g1

/-- The non-blocking send on the capacity-10 `damageEvent` channel:
`select { case g.damageEvent <- damage: default: }`. -/
def tryEnqueue (q : List Int) (e : Int) : List Int :=
  if q.length < 10 then q ++ [e] else q

/-- The hit records of one hostile turn: the snapshot ids paired with the
per-bee decisions, keeping those that decided to hit (`hits` in
`BeeTurn`). -/
def hitIds (aliveList : List Nat) (decisions : List Bool) : List Nat :=
  ((aliveList.zip decisions).filter (fun r => r.2)).map (fun r => r.1)

/-- `BeeTurn` from game.go.  `decisions` holds the fan-in of the per-bee
`makeBeeDecision` outcomes (`willHit`), one per snapshot entry;
`choiceIdx` is the oracle for `rng.Intn(len(hits))`.  If some bee decided
to hit, exactly one hit record is selected, its bee's `Damage` is applied
to the player once, and the damage amount is enqueued non-blockingly;
otherwise a miss is reported and nothing is mutated. -/
def Game.BeeTurn (g : Game) (decisions : List Bool) (choiceIdx : Nat) : Game :=
  let res := g.GetAliveBees
  let aliveList := res.1
  let g1 := res.2
  if aliveList.length = 0 then g1
  else
    let hits := hitIds aliveList decisions
    if 0 < hits.length then
      let chosenId := hits.getD (choiceIdx % hits.length) 0
      let damage := (g1.beeAt chosenId).Damage
      { g1 with
        player := g1.player.TakeDamage damage
        events := tryEnqueue g1.events damage }
    else g1

/-- `applyDamageToEntity` of the store (the spec's §4.1 name for hitting
one hive entity through `Bee.TakeDamage`, as the tests drive it). -/
def Game.ApplyDamageToBee (g : Game) (id : Nat) : Game :=
  { g with bees := g.bees.set id ((g.beeAt id).TakeDamage) }

/-- One core operation applied to the shared combat state. -/
inductive Step : Game → Game → Prop where
  | playerTurn (g : Game) (cmd : String) (miss : Bool) (idx : Nat) :
      Step g (g.PlayerTurn cmd miss idx)
  | playerAttack (g : Game) (miss : Bool) (idx : Nat) :
      Step g (g.PlayerAttack miss idx)
  | beeTurn (g : Game) (ds : List Bool) (k : Nat) :
      Step g (g.BeeTurn ds k)
  | killAllBees (g : Game) :
      Step g g.KillAllBees
  | applyDamageToBee (g : Game) (id : Nat) :
      Step g (g.ApplyDamageToBee id)
  | damagePlayer (g : Game) (d : Int) (h : 0 ≤ d) :
      Step g { g with player := g.player.TakeDamage d }

/-- The states reachable from a freshly initialised game (configuration
with non-negative starting player health, per §6) by the core
operations. -/
inductive Reachable : Game → Prop where
  | init (cfg : GameConfig) (h : 0 ≤ cfg.PlayerHP) :
      Reachable (NewGameWithConfig cfg)
  | step {g g' : Game} : Reachable g → Step g g' → Reachable g'

/-! ### Elementary lemmas about entities and stats -/

theorem statsHP_nonneg (t : BeeType) : 0 ≤ (BeeStatsTable t).HP := by
  cases t <;> decide

theorem statsTakes_nonneg (t : BeeType) : 0 ≤ (BeeStatsTable t).TakesDamage := by
  cases t <;> decide

theorem statsDamage_nonneg (t : BeeType) : 0 ≤ (BeeStatsTable t).Damage := by
  cases t <;> decide

theorem Bee.isAlive_iff (b : Bee) : b.IsAlive = true ↔ 0 < b.HP := by
  simp [Bee.IsAlive]

theorem Bee.takeDamage_HP (b : Bee) :
    (b.TakeDamage).HP = max 0 (b.HP - (BeeStatsTable b.beeType).TakesDamage) := by
  simp only [Bee.TakeDamage]
  split <;> dsimp only <;> omega

theorem Bee.takeDamage_beeType (b : Bee) : (b.TakeDamage).beeType = b.beeType := by
  simp only [Bee.TakeDamage]
  split <;> rfl

theorem Bee.takeDamage_MaxHP (b : Bee) : (b.TakeDamage).MaxHP = b.MaxHP := by
  simp only [Bee.TakeDamage]
  split <;> rfl

theorem Bee.takeDamage_Damage (b : Bee) : (b.TakeDamage).Damage = b.Damage := by
  simp only [Bee.TakeDamage]
  split <;> rfl

theorem playerTakeDamage_HP (p : Player) (d : Int) :
    (p.TakeDamage d).HP = max 0 (p.HP - d) := by
  simp only [Player.TakeDamage]
  split <;> dsimp only <;> omega

theorem playerTakeDamage_MaxHP (p : Player) (d : Int) :
    (p.TakeDamage d).MaxHP = p.MaxHP := by
  simp only [Player.TakeDamage]
  split <;> rfl

/-! ### Lemmas about the `KillAllBees` heap traversal -/

/-- The per-bee effect of the `KillAllBees` loop body. -/
def killFun (b : Bee) : Bee :=
  if 0 < b.HP then { b with HP := 0 } else b

theorem killFun_idem (b : Bee) : killFun (killFun b) = killFun b := by
  by_cases h : 0 < b.HP <;> simp [killFun, h]

theorem killFun_HP (b : Bee) (h : 0 ≤ b.HP) : (killFun b).HP = 0 := by
  by_cases h0 : 0 < b.HP <;> simp [killFun, h0] <;> omega

theorem killOne_length (bs : List Bee) (id : Nat) :
    (killOne bs id).length = bs.length := by
  simp only [killOne]
  split
  · exact bs.length_set id _
  · rfl

theorem killOne_getElem? (bs : List Bee) (id p : Nat) :
    (killOne bs id)[p]? =
      if id = p then (bs[p]?).map killFun else bs[p]? := by
  have hdead : dummyBee.IsAlive = false := rfl
  simp only [killOne]
  cases hb : bs[id]? with
  | none =>
    simp only [Option.getD_none, hdead, Bool.false_eq_true, if_false]
    by_cases hip : id = p
    · subst hip
      rw [if_pos rfl, hb]
      rfl
    · rw [if_neg hip]
  | some b =>
    have hlt : id < bs.length := by
      by_contra hge
      rw [List.getElem?_eq_none (Nat.le_of_not_lt hge)] at hb
      cases hb
    simp only [Option.getD_some]
    by_cases halive : b.IsAlive
    · rw [if_pos halive, List.getElem?_set]
      by_cases hip : id = p
      · subst hip
        have hbhp : 0 < b.HP := (Bee.isAlive_iff b).mp halive
        simp [hlt, hb, killFun, hbhp]
      · simp [hip]
    · rw [if_neg halive]
      by_cases hip : id = p
      · subst hip
        have hbhp : ¬ 0 < b.HP := fun h0 => halive ((Bee.isAlive_iff b).mpr h0)
        simp [hb, killFun, hbhp]
      · rw [if_neg hip]

theorem killIds_length (ids : List Nat) (bs : List Bee) :
    (killIds ids bs).length = bs.length := by
  induction ids generalizing bs with
  | nil => rfl
  | cons i ids ih =>
    show (killIds ids (killOne bs i)).length = bs.length
    rw [ih, killOne_length]

theorem killIds_getElem? (ids : List Nat) (bs : List Bee) (p : Nat) :
    (killIds ids bs)[p]? =
      if p ∈ ids then (bs[p]?).map killFun else bs[p]? := by
  induction ids generalizing bs with
  | nil => simp [killIds]
  | cons i ids ih =>
    show (killIds ids (killOne bs i))[p]? = _
    rw [ih, killOne_getElem?]
    by_cases hpids : p ∈ ids
    · rw [if_pos hpids, if_pos (List.mem_cons.mpr (Or.inr hpids))]
      by_cases hip : i = p
      · rw [if_pos hip]
        cases bs[p]? with
        | none => rfl
        | some b => simp [killFun_idem]
      · rw [if_neg hip]
    · rw [if_neg hpids]
      by_cases hip : i = p
      · rw [if_pos hip, if_pos (List.mem_cons.mpr (Or.inl hip.symm))]
      · rw [if_neg hip,
          if_neg (fun h => (List.mem_cons.mp h).elim (fun h1 => hip h1.symm) hpids)]

/-! ### Lemmas about the alive view -/

theorem GetAliveBees_fst (g : Game) :
    (g.GetAliveBees).1 = g.aliveBees.filter (fun id => (g.beeAt id).IsAlive) := rfl

theorem GetAliveBees_snd (g : Game) :
    (g.GetAliveBees).2 = { g with aliveBees := (g.GetAliveBees).1 } := rfl

theorem mem_GetAliveBees_fst (g : Game) (id : Nat) :
    id ∈ (g.GetAliveBees).1 ↔ id ∈ g.aliveBees ∧ 0 < (g.beeAt id).HP := by
  rw [GetAliveBees_fst, List.mem_filter]
  simp [Bee.isAlive_iff]

theorem getD_mod_mem (l : List Nat) (k : Nat) (h : 0 < l.length) :
    l.getD (k % l.length) 0 ∈ l := by
  have hlt : k % l.length < l.length := Nat.mod_lt k h
  rw [List.getD_eq_getElem?_getD, List.getElem?_eq_getElem hlt]
  simpa using List.getElem_mem hlt

theorem hitIds_subset (aliveList : List Nat) (decisions : List Bool) (x : Nat)
    (hx : x ∈ hitIds aliveList decisions) : x ∈ aliveList := by
  simp only [hitIds, List.mem_map, List.mem_filter] at hx
  obtain ⟨⟨a, b⟩, ⟨hz, -⟩, rfl⟩ := hx
  exact (List.of_mem_zip hz).1

/-! ### The state invariant maintained by all core operations -/

/-- Well-formedness of a game state: clamped health for the player and
every hive entity, stats-table-consistent immutable fields, the hive
groups jointly covering the heap, a valid and complete alive cache, and a
bounded event buffer. -/
structure Inv (g : Game) : Prop where
  playerLo : 0 ≤ g.player.HP
  playerHi : g.player.HP ≤ g.player.MaxHP
  beeLo : ∀ id : Nat, 0 ≤ (g.beeAt id).HP
  beeHi : ∀ id : Nat, (g.beeAt id).HP ≤ (g.beeAt id).MaxHP
  beeMax : ∀ id : Nat, id < g.bees.length →
    (g.beeAt id).MaxHP = (BeeStatsTable (g.beeAt id).beeType).HP
  beeDmg : ∀ id : Nat, id < g.bees.length →
    (g.beeAt id).Damage = (BeeStatsTable (g.beeAt id).beeType).Damage
  cover : ∀ id : Nat, id < g.bees.length → id ∈ g.hiveQ ++ g.hiveW ++ g.hiveD
  cacheValid : ∀ id ∈ g.aliveBees, id < g.bees.length
  cacheComplete : ∀ id : Nat, id < g.bees.length → 0 < (g.beeAt id).HP →
    id ∈ g.aliveBees
  eventsLen : g.events.length ≤ 10

theorem beeAt_of_ge (g : Game) (id : Nat) (h : g.bees.length ≤ id) :
    g.beeAt id = dummyBee := by
  simp [Game.beeAt, List.getElem?_eq_none h]

theorem beeAt_of_lt (g : Game) (id : Nat) (h : id < g.bees.length) :
    g.beeAt id = g.bees[id] := by
  simp [Game.beeAt, List.getElem?_eq_getElem h]

theorem beeAt_mem (g : Game) (id : Nat) (h : id < g.bees.length) :
    g.beeAt id ∈ g.bees := by
  rw [beeAt_of_lt g id h]
  exact List.getElem_mem h

theorem inv_getAlive (g : Game) (hInv : Inv g) : Inv (g.GetAliveBees).2 := by
  rw [GetAliveBees_snd]
  refine ⟨hInv.playerLo, hInv.playerHi, hInv.beeLo, hInv.beeHi, hInv.beeMax,
    hInv.beeDmg, hInv.cover, ?_, ?_, hInv.eventsLen⟩
  · intro id hid
    exact hInv.cacheValid id ((mem_GetAliveBees_fst g id).mp hid).1
  · intro id hlt hpos
    exact (mem_GetAliveBees_fst g id).mpr ⟨hInv.cacheComplete id hlt hpos, hpos⟩

theorem killAllBees_player (g : Game) : (g.KillAllBees).player = g.player := rfl

theorem killAllBees_turns (g : Game) : (g.KillAllBees).turns = g.turns := rfl

theorem killAllBees_events (g : Game) : (g.KillAllBees).events = g.events := rfl

theorem killAllBees_length (g : Game) :
    (g.KillAllBees).bees.length = g.bees.length :=
  killIds_length _ _

theorem killAllBees_beeAt (g : Game) (p : Nat) :
    (g.KillAllBees).beeAt p =
      if p ∈ g.hiveQ ++ g.hiveW ++ g.hiveD then killFun (g.beeAt p)
      else g.beeAt p := by
  simp only [Game.beeAt, Game.KillAllBees, killIds_getElem?]
  split
  · cases g.bees[p]? with
    | none => rfl
    | some b => rfl
  · rfl

theorem killAllBees_beeAt_HP (g : Game) (hInv : Inv g) (p : Nat)
    (hp : p < g.bees.length) : ((g.KillAllBees).beeAt p).HP = 0 := by
  rw [killAllBees_beeAt, if_pos (hInv.cover p hp)]
  exact killFun_HP _ (hInv.beeLo p)

theorem inv_killAllBees (g : Game) (hInv : Inv g) : Inv g.KillAllBees := by
  have hlen := killAllBees_length g
  refine ⟨hInv.playerLo, hInv.playerHi, ?_, ?_, ?_, ?_, ?_, ?_, ?_,
    hInv.eventsLen⟩
  · intro id
    rw [killAllBees_beeAt]
    split
    · by_cases h0 : 0 < (g.beeAt id).HP <;> simp [killFun, h0] <;>
        exact hInv.beeLo id
    · exact hInv.beeLo id
  · intro id
    rw [killAllBees_beeAt]
    split
    · by_cases h0 : 0 < (g.beeAt id).HP <;> simp [killFun, h0]
      · calc (0 : Int) ≤ (g.beeAt id).HP := hInv.beeLo id
          _ ≤ (g.beeAt id).MaxHP := hInv.beeHi id
      · exact hInv.beeHi id
    · exact hInv.beeHi id
  · intro id hid
    rw [killAllBees_beeAt]
    split
    · by_cases h0 : 0 < (g.beeAt id).HP <;> simp [killFun, h0] <;>
        exact hInv.beeMax id (hlen ▸ hid)
    · exact hInv.beeMax id (hlen ▸ hid)
  · intro id hid
    rw [killAllBees_beeAt]
    split
    · by_cases h0 : 0 < (g.beeAt id).HP <;> simp [killFun, h0] <;>
        exact hInv.beeDmg id (hlen ▸ hid)
    · exact hInv.beeDmg id (hlen ▸ hid)
  · intro id hid
    exact hInv.cover id (hlen ▸ hid)
  · intro id hid
    cases hid
  · intro id hid hpos
    rw [killAllBees_beeAt_HP g hInv id (hlen ▸ hid)] at hpos
    exact absurd hpos (by omega)

theorem beeAt_GetAliveBees (g : Game) (id : Nat) :
    ((g.GetAliveBees).2).beeAt id = g.beeAt id := rfl

theorem beeAt_set (g : Game) (tid : Nat) (b : Bee) (p : Nat) :
    ({ g with bees := g.bees.set tid b } : Game).beeAt p =
      if tid = p ∧ tid < g.bees.length then b else g.beeAt p := by
  simp only [Game.beeAt, List.getElem?_set]
  by_cases he : tid = p
  · subst he
    by_cases hlt : tid < g.bees.length
    · simp [hlt]
    · simp [hlt, List.getElem?_eq_none (Nat.le_of_not_lt hlt)]
  · simp [he]

theorem inv_setDamaged (g : Game) (hInv : Inv g) (tid : Nat) :
    Inv { g with bees := g.bees.set tid ((g.beeAt tid).TakeDamage) } := by
  have hl := beeAt_set g tid ((g.beeAt tid).TakeDamage)
  have hlen : ({ g with bees := g.bees.set tid ((g.beeAt tid).TakeDamage) } :
      Game).bees.length = g.bees.length := g.bees.length_set tid _
  have hHP' : ((g.beeAt tid).TakeDamage).HP ≤ (g.beeAt tid).HP := by
    rw [Bee.takeDamage_HP]
    have := statsTakes_nonneg (g.beeAt tid).beeType
    have := hInv.beeLo tid
    omega
  refine ⟨hInv.playerLo, hInv.playerHi, ?_, ?_, ?_, ?_, ?_, ?_, ?_,
    hInv.eventsLen⟩
  · intro p
    rw [hl p]
    split
    · rw [Bee.takeDamage_HP]; omega
    · exact hInv.beeLo p
  · intro p
    rw [hl p]
    split
    · rw [Bee.takeDamage_HP, Bee.takeDamage_MaxHP]
      have h1 := hInv.beeHi tid
      have h2 := hInv.beeLo tid
      have h3 := statsTakes_nonneg (g.beeAt tid).beeType
      omega
    · exact hInv.beeHi p
  · intro p hp
    rw [hl p]
    rw [hlen] at hp
    split
    · rename_i hcond
      rw [Bee.takeDamage_MaxHP, Bee.takeDamage_beeType]
      exact hInv.beeMax tid hcond.2
    · exact hInv.beeMax p hp
  · intro p hp
    rw [hl p]
    rw [hlen] at hp
    split
    · rename_i hcond
      rw [Bee.takeDamage_Damage, Bee.takeDamage_beeType]
      exact hInv.beeDmg tid hcond.2
    · exact hInv.beeDmg p hp
  · intro p hp
    rw [hlen] at hp
    exact hInv.cover p hp
  · intro p hp
    rw [hlen]
    exact hInv.cacheValid p hp
  · intro p hp hpos
    rw [hlen] at hp
    rw [hl p] at hpos
    apply hInv.cacheComplete p hp
    by_cases hc : tid = p ∧ tid < g.bees.length
    · rw [if_pos hc] at hpos
      rcases hc with ⟨rfl, -⟩
      omega
    · rwa [if_neg hc] at hpos

theorem inv_updatePE (g : Game) (hInv : Inv g) (p' : Player) (ev' : List Int)
    (hLo : 0 ≤ p'.HP) (hHi : p'.HP ≤ p'.MaxHP) (hev : ev'.length ≤ 10) :
    Inv { g with player := p', events := ev' } :=
  ⟨hLo, hHi, hInv.beeLo, hInv.beeHi, hInv.beeMax, hInv.beeDmg, hInv.cover,
    hInv.cacheValid, hInv.cacheComplete, hev⟩

theorem inv_turnsUpdate (g : Game) (hInv : Inv g) (t : Int) :
    Inv { g with turns := t } :=
  ⟨hInv.playerLo, hInv.playerHi, hInv.beeLo, hInv.beeHi, hInv.beeMax,
    hInv.beeDmg, hInv.cover, hInv.cacheValid, hInv.cacheComplete,
    hInv.eventsLen⟩

theorem tryEnqueue_length_le (q : List Int) (e : Int) (h : q.length ≤ 10) :
    (tryEnqueue q e).length ≤ 10 := by
  simp only [tryEnqueue]
  split
  · rw [List.length_append]
    simp
    omega
  · exact h

theorem inv_playerAttack (g : Game) (hInv : Inv g) (miss : Bool) (idx : Nat) :
    Inv (g.PlayerAttack miss idx) := by
  have h1 : Inv (g.GetAliveBees).2 := inv_getAlive g hInv
  simp only [Game.PlayerAttack]
  split
  · exact h1
  · split
    · exact h1
    · have h2 := inv_setDamaged (g.GetAliveBees).2 h1
        ((g.GetAliveBees).1.getD (idx % (g.GetAliveBees).1.length) 0)
      split
      · exact h2
      · split
        · exact inv_killAllBees _ h2
        · exact h2

theorem inv_playerTurn (g : Game) (hInv : Inv g) (cmd : String) (miss : Bool)
    (idx : Nat) : Inv (g.PlayerTurn cmd miss idx) := by
  simp only [Game.PlayerTurn]
  have hg1 := inv_turnsUpdate g hInv (g.turns + 1)
  split
  · exact inv_playerAttack _ hg1 miss idx
  · exact hg1

theorem chosen_damage_nonneg (g : Game) (hInv : Inv g) (aliveList : List Nat)
    (halive : aliveList = (g.GetAliveBees).1) (id : Nat)
    (hid : id ∈ aliveList) : 0 ≤ (g.beeAt id).Damage := by
  subst halive
  have hmem := (mem_GetAliveBees_fst g id).mp hid
  have hlt := hInv.cacheValid id hmem.1
  rw [hInv.beeDmg id hlt]
  exact statsDamage_nonneg _

theorem inv_beeTurn (g : Game) (hInv : Inv g) (ds : List Bool) (k : Nat) :
    Inv (g.BeeTurn ds k) := by
  have h1 : Inv (g.GetAliveBees).2 := inv_getAlive g hInv
  simp only [Game.BeeTurn]
  split
  · exact h1
  · split
    · rename_i hne hpos
      set hits := hitIds (g.GetAliveBees).1 ds with hhits
      have hchosen : hits.getD (k % hits.length) 0 ∈ hits :=
        getD_mod_mem hits k hpos
      have hdmg : 0 ≤ ((g.GetAliveBees).2.beeAt
          (hits.getD (k % hits.length) 0)).Damage := by
        rw [beeAt_GetAliveBees]
        exact chosen_damage_nonneg g hInv (g.GetAliveBees).1 rfl _
          (hitIds_subset _ ds _ hchosen)
      apply inv_updatePE _ h1
      · rw [playerTakeDamage_HP]
        omega
      · rw [playerTakeDamage_HP, playerTakeDamage_MaxHP]
        have hLo := h1.playerLo
        have hHi := h1.playerHi
        omega
      · exact tryEnqueue_length_le _ _ h1.eventsLen
    · exact h1

theorem inv_applyDamageToBee (g : Game) (hInv : Inv g) (id : Nat) :
    Inv (g.ApplyDamageToBee id) :=
  inv_setDamaged g hInv id

theorem inv_damagePlayer (g : Game) (hInv : Inv g) (d : Int) (hd : 0 ≤ d) :
    Inv { g with player := g.player.TakeDamage d } := by
  have h := inv_updatePE g hInv (g.player.TakeDamage d) g.events ?_ ?_
    hInv.eventsLen
  · exact h
  · rw [playerTakeDamage_HP]; omega
  · rw [playerTakeDamage_HP, playerTakeDamage_MaxHP]
    have := hInv.playerLo
    have := hInv.playerHi
    omega

theorem newGame_bees_length (cfg : GameConfig) :
    (NewGameWithConfig cfg).bees.length =
      cfg.QueenCount + cfg.WorkerCount + cfg.DroneCount := by
  simp [NewGameWithConfig]
  omega

theorem newGame_bee_mem (cfg : GameConfig) (b : Bee)
    (hb : b ∈ (NewGameWithConfig cfg).bees) :
    b = NewBee .Queen ∨ b = NewBee .Worker ∨ b = NewBee .Drone := by
  simp only [NewGameWithConfig, List.mem_append, List.mem_replicate] at hb
  rcases hb with (⟨-, h⟩ | ⟨-, h⟩) | ⟨-, h⟩ <;> simp [h]

theorem inv_newGame (cfg : GameConfig) (hcfg : 0 ≤ cfg.PlayerHP) :
    Inv (NewGameWithConfig cfg) := by
  have hlen := newGame_bees_length cfg
  have hmem : ∀ id : Nat, id < (NewGameWithConfig cfg).bees.length →
      ∃ t : BeeType, (NewGameWithConfig cfg).beeAt id = NewBee t := by
    intro id hid
    rcases newGame_bee_mem cfg _ (beeAt_mem _ id hid) with h | h | h
    · exact ⟨.Queen, h⟩
    · exact ⟨.Worker, h⟩
    · exact ⟨.Drone, h⟩
  refine ⟨hcfg, le_refl _, ?_, ?_, ?_, ?_, ?_, ?_, ?_, ?_⟩
  · intro id
    by_cases hid : id < (NewGameWithConfig cfg).bees.length
    · obtain ⟨t, ht⟩ := hmem id hid
      rw [ht]
      exact statsHP_nonneg t
    · rw [beeAt_of_ge _ id (Nat.le_of_not_lt hid)]
      decide
  · intro id
    by_cases hid : id < (NewGameWithConfig cfg).bees.length
    · obtain ⟨t, ht⟩ := hmem id hid
      rw [ht]
      exact le_refl _
    · rw [beeAt_of_ge _ id (Nat.le_of_not_lt hid)]
      decide
  · intro id hid
    obtain ⟨t, ht⟩ := hmem id hid
    rw [ht]
    cases t <;> rfl
  · intro id hid
    obtain ⟨t, ht⟩ := hmem id hid
    rw [ht]
    cases t <;> rfl
  · intro id hid
    rw [hlen] at hid
    simp only [NewGameWithConfig, List.mem_append, List.mem_range, List.mem_map]
    rcases Nat.lt_or_ge id cfg.QueenCount with h | h
    · exact Or.inl (Or.inl h)
    · rcases Nat.lt_or_ge id (cfg.QueenCount + cfg.WorkerCount) with h2 | h2
      · exact Or.inl (Or.inr ⟨id - cfg.QueenCount, by omega, by omega⟩)
      · exact Or.inr ⟨id - cfg.QueenCount - cfg.WorkerCount, by omega, by omega⟩
  · intro id hid
    rw [hlen]
    have := List.mem_range.mp (show id ∈ List.range
      (cfg.QueenCount + cfg.WorkerCount + cfg.DroneCount) from hid)
    omega
  · intro id hid _
    rw [hlen] at hid
    exact List.mem_range.mpr (by omega)
  · simp [NewGameWithConfig]

theorem inv_step {g g' : Game} (hInv : Inv g) (h : Step g g') : Inv g' := by
  cases h with
  | playerTurn cmd miss idx => exact inv_playerTurn g hInv cmd miss idx
  | playerAttack miss idx => exact inv_playerAttack g hInv miss idx
  | beeTurn ds k => exact inv_beeTurn g hInv ds k
  | killAllBees => exact inv_killAllBees g hInv
  | applyDamageToBee id => exact inv_applyDamageToBee g hInv id
  | damagePlayer d hd => exact inv_damagePlayer g hInv d hd

theorem reachable_inv {g : Game} (h : Reachable g) : Inv g := by
  induction h with
  | init cfg hcfg => exact inv_newGame cfg hcfg
  | step _ hstep ih => exact inv_step ih hstep

/-! ### Component lemmas for the operations -/

theorem getAlive_player (g : Game) : (g.GetAliveBees).2.player = g.player := rfl

theorem getAlive_bees (g : Game) : (g.GetAliveBees).2.bees = g.bees := rfl

theorem getAlive_turns (g : Game) : (g.GetAliveBees).2.turns = g.turns := rfl

theorem getAlive_events (g : Game) : (g.GetAliveBees).2.events = g.events := rfl

theorem playerAttack_turns (g : Game) (miss : Bool) (idx : Nat) :
    (g.PlayerAttack miss idx).turns = g.turns := by
  simp only [Game.PlayerAttack]
  split
  · rfl
  · split
    · rfl
    · split
      · rfl
      · split
        · rw [killAllBees_turns]
          rfl
        · rfl


theorem playerAttack_player (g : Game) (miss : Bool) (idx : Nat) :
    (g.PlayerAttack miss idx).player = g.player := by
  simp only [Game.PlayerAttack]
  split
  · rfl
  · split
    · rfl
    · split
      · rfl
      · split
        · rw [killAllBees_player]
          rfl
        · rfl

theorem beeTurn_turns (g : Game) (ds : List Bool) (k : Nat) :
    (g.BeeTurn ds k).turns = g.turns := by
  simp only [Game.BeeTurn]
  split
  · rfl
  · split
    · rfl
    · rfl

theorem beeTurn_bees (g : Game) (ds : List Bool) (k : Nat) :
    (g.BeeTurn ds k).bees = g.bees := by
  simp only [Game.BeeTurn]
  split
  · rfl
  · split
    · rfl
    · rfl

/-! ### Monotonicity of health across the core operations -/

/-- The health components of `g'` are pointwise bounded by those of `g`
(and the heap keeps its size). -/
def Shrinks (g g' : Game) : Prop :=
  g'.player.HP ≤ g.player.HP ∧ g'.bees.length = g.bees.length ∧
  ∀ id : Nat, (g'.beeAt id).HP ≤ (g.beeAt id).HP

theorem shrinks_rfl (g : Game) : Shrinks g g :=
  ⟨le_refl _, rfl, fun _ => le_refl _⟩

theorem shrinks_trans {a b c : Game} (h1 : Shrinks a b) (h2 : Shrinks b c) :
    Shrinks a c :=
  ⟨le_trans h2.1 h1.1, h2.2.1.trans h1.2.1,
    fun id => le_trans (h2.2.2 id) (h1.2.2 id)⟩

theorem shrinks_of_eqBees {g g' : Game} (hp : g'.player.HP ≤ g.player.HP)
    (hb : g'.bees = g.bees) : Shrinks g g' :=
  ⟨hp, by rw [hb], fun id => le_of_eq (by simp [Game.beeAt, hb])⟩

theorem shrinks_killAllBees (g : Game) : Shrinks g g.KillAllBees := by
  refine ⟨le_of_eq (by rw [killAllBees_player]), killAllBees_length g, ?_⟩
  intro id
  rw [killAllBees_beeAt]
  split
  · by_cases h0 : 0 < (g.beeAt id).HP <;> simp [killFun, h0]
    omega
  · exact le_refl _

theorem shrinks_setDamaged (g : Game) (hInv : Inv g) (tid : Nat) :
    Shrinks g { g with bees := g.bees.set tid ((g.beeAt tid).TakeDamage) } := by
  refine ⟨le_refl _, g.bees.length_set tid _, ?_⟩
  intro p
  rw [beeAt_set]
  split
  · rename_i hcond
    rcases hcond with ⟨rfl, -⟩
    rw [Bee.takeDamage_HP]
    have := statsTakes_nonneg (g.beeAt tid).beeType
    have := hInv.beeLo tid
    omega
  · exact le_refl _

theorem shrinks_playerAttack (g : Game) (hInv : Inv g) (miss : Bool)
    (idx : Nat) : Shrinks g (g.PlayerAttack miss idx) := by
  have h1 : Inv (g.GetAliveBees).2 := inv_getAlive g hInv
  have hbase : Shrinks g (g.GetAliveBees).2 :=
    shrinks_of_eqBees (le_of_eq rfl) rfl
  simp only [Game.PlayerAttack]
  split
  · exact hbase
  · split
    · exact hbase
    · have h2 := shrinks_setDamaged (g.GetAliveBees).2 h1
        ((g.GetAliveBees).1.getD (idx % (g.GetAliveBees).1.length) 0)
      split
      · exact shrinks_trans hbase h2
      · split
        · exact shrinks_trans hbase (shrinks_trans h2 (shrinks_killAllBees _))
        · exact shrinks_trans hbase h2

theorem shrinks_beeTurn (g : Game) (hInv : Inv g) (ds : List Bool) (k : Nat) :
    Shrinks g (g.BeeTurn ds k) := by
  have hbase : Shrinks g (g.GetAliveBees).2 :=
    shrinks_of_eqBees (le_of_eq rfl) rfl
  simp only [Game.BeeTurn]
  split
  · exact hbase
  · split
    · rename_i hne hpos
      refine shrinks_of_eqBees ?_ rfl
      have hchosen := getD_mod_mem (hitIds (g.GetAliveBees).1 ds) k hpos
      have hdmg : 0 ≤ ((g.GetAliveBees).2.beeAt
          ((hitIds (g.GetAliveBees).1 ds).getD
            (k % (hitIds (g.GetAliveBees).1 ds).length) 0)).Damage := by
        rw [beeAt_GetAliveBees]
        exact chosen_damage_nonneg g hInv (g.GetAliveBees).1 rfl _
          (hitIds_subset _ ds _ hchosen)
      show ((g.GetAliveBees).2.player.TakeDamage _).HP ≤ g.player.HP
      rw [playerTakeDamage_HP, getAlive_player]
      have := hInv.playerLo
      omega
    · exact hbase

theorem shrinks_playerTurn (g : Game) (hInv : Inv g) (cmd : String)
    (miss : Bool) (idx : Nat) : Shrinks g (g.PlayerTurn cmd miss idx) := by
  simp only [Game.PlayerTurn]
  have hbase : Shrinks g { g with turns := g.turns + 1 } :=
    shrinks_of_eqBees (le_of_eq rfl) rfl
  split
  · exact shrinks_trans hbase
      (shrinks_playerAttack _ (inv_turnsUpdate g hInv _) miss idx)
  · exact hbase

theorem shrinks_damagePlayer (g : Game) (hInv : Inv g) (d : Int) (hd : 0 ≤ d) :
    Shrinks g { g with player := g.player.TakeDamage d } := by
  refine shrinks_of_eqBees ?_ rfl
  show (g.player.TakeDamage d).HP ≤ g.player.HP
  rw [playerTakeDamage_HP]
  have := hInv.playerLo
  omega

theorem step_shrinks {g g' : Game} (hInv : Inv g) (h : Step g g') :
    Shrinks g g' := by
  cases h with
  | playerTurn cmd miss idx => exact shrinks_playerTurn g hInv cmd miss idx
  | playerAttack miss idx => exact shrinks_playerAttack g hInv miss idx
  | beeTurn ds k => exact shrinks_beeTurn g hInv ds k
  | killAllBees => exact shrinks_killAllBees g
  | applyDamageToBee id => exact shrinks_setDamaged g hInv id
  | damagePlayer d hd => exact shrinks_damagePlayer g hInv d hd

theorem reachable_steps {g g' : Game} (hr : Reachable g)
    (hs : Relation.ReflTransGen Step g g') : Reachable g' := by
  induction hs with
  | refl => exact hr
  | tail hab hbc ih => exact Reachable.step ih hbc

theorem steps_shrinks {g g' : Game} (hr : Reachable g)
    (hs : Relation.ReflTransGen Step g g') : Shrinks g g' := by
  induction hs with
  | refl => exact shrinks_rfl g
  | tail hab hbc ih =>
    exact shrinks_trans ih
      (step_shrinks (reachable_inv (reachable_steps hr hab)) hbc)

/-! ### The claims -/

/-- Claim C3, counterexample: the claim states that the turn counter is
not incremented on an attack attempt against an empty hive; but on the
concrete empty-hive state obtained by eliminating the whole default hive,
a player attack attempt (`PlayerTurn "hit"`) increments the counter from
0 to 1, because `PlayerTurn` increments before `PlayerAttack` performs the
empty-hive check. -/
theorem claim_C3_counterexample :
    ((NewGame.KillAllBees).GetAliveBees).1.length = 0 ∧
    (NewGame.KillAllBees).turns = 0 ∧
    ((NewGame.KillAllBees).PlayerTurn "hit" false 0).turns = 1 ∧
    ¬ ((NewGame.KillAllBees).PlayerTurn "hit" false 0).turns =
        (NewGame.KillAllBees).turns := by
  decide

/-- Claim C3, amended: the turn counter is incremented by exactly one on
every `PlayerTurn` invocation — including an attempt against an empty
hive, and regardless of hit or miss — because the increment precedes the
attack resolution; the attack resolver `PlayerAttack` itself (whose
empty-hive branch is the no-op) never modifies the turn counter. -/
theorem claim_C3_amended (g : Game) (cmd : String) (miss : Bool) (idx : Nat) :
    (g.PlayerTurn cmd miss idx).turns = g.turns + 1 ∧
    (g.PlayerAttack miss idx).turns = g.turns := by
  constructor
  · simp only [Game.PlayerTurn]
    split
    · rw [playerAttack_turns]
    · rfl
  · exact playerAttack_turns g miss idx

/-- k-fold application of the per-hit damage operation to a freshly
created bee of category `t`. -/
def hitK (t : BeeType) (k : Nat) : Bee :=
  Bee.TakeDamage^[k] (NewBee t)

/-- ceil(startingHealth / damageReceivedPerHit) per category:
ceil(100/10) = 10, ceil(75/25) = 3, ceil(60/30) = 2. -/
def hitsToKill : BeeType → Nat
  | .Queen => 10
  | .Worker => 3
  | .Drone => 2

theorem hitK_closed (t : BeeType) (k : Nat) :
    (hitK t k).HP =
      max 0 ((BeeStatsTable t).HP - k * (BeeStatsTable t).TakesDamage) ∧
    (hitK t k).beeType = t := by
  induction k with
  | zero =>
    constructor
    · have := statsHP_nonneg t
      simp only [hitK, Function.iterate_zero_apply, NewBee]
      push_cast
      omega
    · simp [hitK, NewBee]
  | succ k ih =>
    have hstep : hitK t (k + 1) = (hitK t k).TakeDamage :=
      Function.iterate_succ_apply' _ _ _
    refine ⟨?_, ?_⟩
    · rw [hstep, Bee.takeDamage_HP, ih.2, ih.1]
      have h1 := statsTakes_nonneg t
      have hredist : ((k : Int) + 1) * (BeeStatsTable t).TakesDamage
          = (k : Int) * (BeeStatsTable t).TakesDamage
            + (BeeStatsTable t).TakesDamage := by
        ring
      push_cast
      rw [hredist]
      omega
    · rw [hstep, Bee.takeDamage_beeType, ih.2]

/-- Claim C4: each category's stats are (Queen 100/10, Worker 75/25,
Drone 60/30); after k hits a fresh entity's health is exactly
max(0, H - k*D); it is alive iff its health is strictly positive; and
after ceil(H/D) hits it is dead with health exactly 0. -/
theorem claim_C4_per_category_damage (t : BeeType) (k : Nat) :
    (BeeStatsTable BeeType.Queen).HP = 100 ∧
    (BeeStatsTable BeeType.Queen).TakesDamage = 10 ∧
    (BeeStatsTable BeeType.Worker).HP = 75 ∧
    (BeeStatsTable BeeType.Worker).TakesDamage = 25 ∧
    (BeeStatsTable BeeType.Drone).HP = 60 ∧
    (BeeStatsTable BeeType.Drone).TakesDamage = 30 ∧
    (hitK t k).HP =
      max 0 ((BeeStatsTable t).HP - k * (BeeStatsTable t).TakesDamage) ∧
    ((hitK t k).IsAlive = true ↔ 0 < (hitK t k).HP) ∧
    (hitK t (hitsToKill t)).HP = 0 ∧
    (hitK t (hitsToKill t)).IsAlive = false := by
  have hdead : (hitK t (hitsToKill t)).HP = 0 := by
    rw [(hitK_closed t (hitsToKill t)).1]
    cases t <;> decide
  refine ⟨rfl, rfl, rfl, rfl, rfl, rfl, (hitK_closed t k).1,
    Bee.isAlive_iff _, hdead, ?_⟩
  simp [Bee.IsAlive, hdead]

theorem beeTurn_events (g : Game) (ds : List Bool) (k : Nat) :
    (g.BeeTurn ds k).events = g.events ∨
    ∃ d : Int, (g.BeeTurn ds k).events = tryEnqueue g.events d := by
  simp only [Game.BeeTurn]
  split
  · exact Or.inl rfl
  · split
    · exact Or.inr ⟨_, rfl⟩
    · exact Or.inl rfl

/-- Claim C5: the damage-event queue has fixed capacity 10; an enqueue
attempt appends when the queue holds fewer than 10 events and silently
drops the event when it is full, so the length never exceeds 10 and a
hostile turn against a full queue leaves the queue unchanged (the dropped
event is never queued or retried). -/
theorem claim_C5_bounded_queue_drop_on_full (g : Game) (ds : List Bool)
    (k : Nat) (e : Int) (h : g.events.length ≤ 10) :
    (g.events.length < 10 → tryEnqueue g.events e = g.events ++ [e]) ∧
    (g.events.length = 10 → tryEnqueue g.events e = g.events) ∧
    (tryEnqueue g.events e).length ≤ 10 ∧
    (g.BeeTurn ds k).events.length ≤ 10 ∧
    (g.events.length = 10 → (g.BeeTurn ds k).events = g.events) := by
  refine ⟨?_, ?_, tryEnqueue_length_le _ _ h, ?_, ?_⟩
  · intro h10
    simp [tryEnqueue, h10]
  · intro h10
    simp [tryEnqueue, h10]
  · rcases beeTurn_events g ds k with hev | ⟨d, hev⟩
    · rw [hev]
      exact h
    · rw [hev]
      exact tryEnqueue_length_le _ _ h
  · intro h10
    rcases beeTurn_events g ds k with hev | ⟨d, hev⟩
    · exact hev
    · rw [hev]
      simp [tryEnqueue, h10]

/-- Claim C5 witness: the fresh default game's queue (empty, length 0)
satisfies the bound, instantiating the queue/turn-level guarantees. -/
theorem claim_C5_witness :
    NewGame.events.length ≤ 10 ∧
    ((NewGame.events.length < 10 →
        tryEnqueue NewGame.events 7 = NewGame.events ++ [7]) ∧
      (NewGame.events.length = 10 → tryEnqueue NewGame.events 7 = NewGame.events) ∧
      (tryEnqueue NewGame.events 7).length ≤ 10 ∧
      (NewGame.BeeTurn [] 0).events.length ≤ 10 ∧
      (NewGame.events.length = 10 → (NewGame.BeeTurn [] 0).events = NewGame.events)) :=
  ⟨by decide, claim_C5_bounded_queue_drop_on_full NewGame [] 0 7 (by decide)⟩

/-- Claim C7: invoking the hostile-turn resolver on a state whose alive
view is empty is a no-op on the player, the bee heap, the turn counter
and the event queue. -/
theorem claim_C7_empty_hive_no_op (g : Game) (ds : List Bool) (k : Nat)
    (h : (g.GetAliveBees).1.length = 0) :
    (g.BeeTurn ds k).player = g.player ∧ (g.BeeTurn ds k).bees = g.bees ∧
    (g.BeeTurn ds k).turns = g.turns ∧ (g.BeeTurn ds k).events = g.events := by
  simp only [Game.BeeTurn]
  rw [if_pos h]
  exact ⟨rfl, rfl, rfl, rfl⟩

/-- Claim C7 witness: after eliminating the whole default hive, a hostile
turn changes none of player, heap, turn counter, events. -/
theorem claim_C7_witness :
    ((NewGame.KillAllBees).GetAliveBees).1.length = 0 ∧
    (((NewGame.KillAllBees).BeeTurn [] 0).player = (NewGame.KillAllBees).player ∧
      ((NewGame.KillAllBees).BeeTurn [] 0).bees = (NewGame.KillAllBees).bees ∧
      ((NewGame.KillAllBees).BeeTurn [] 0).turns = (NewGame.KillAllBees).turns ∧
      ((NewGame.KillAllBees).BeeTurn [] 0).events = (NewGame.KillAllBees).events) :=
  ⟨by decide, claim_C7_empty_hive_no_op (NewGame.KillAllBees) [] 0 (by decide)⟩

/-- Claim C8: in every reachable state the player's and every hive
entity's health lie in [0, maxHealth], and applying damage to an entity
or player already at zero health leaves the health at zero (a defined
no-op, not an error). -/
theorem claim_C8_health_clamped (g : Game) (hr : Reachable g) :
    (0 ≤ g.player.HP ∧ g.player.HP ≤ g.player.MaxHP) ∧
    (∀ b ∈ g.bees, 0 ≤ b.HP ∧ b.HP ≤ b.MaxHP) ∧
    (∀ b ∈ g.bees, b.HP = 0 → (b.TakeDamage).HP = 0) ∧
    (∀ d : Int, 0 ≤ d → g.player.HP = 0 → (g.player.TakeDamage d).HP = 0) := by
  have hInv := reachable_inv hr
  refine ⟨⟨hInv.playerLo, hInv.playerHi⟩, ?_, ?_, ?_⟩
  · intro b hb
    obtain ⟨i, hi, rfl⟩ := List.mem_iff_getElem.mp hb
    have h1 := hInv.beeLo i
    have h2 := hInv.beeHi i
    rw [beeAt_of_lt g i hi] at h1 h2
    exact ⟨h1, h2⟩
  · intro b _ h0
    rw [Bee.takeDamage_HP, h0]
    have := statsTakes_nonneg b.beeType
    omega
  · intro d hd h0
    rw [playerTakeDamage_HP, h0]
    omega

/-- Claim C8 witness: the freshly initialised default game is reachable
and its healths are clamped as stated. -/
theorem claim_C8_witness :
    (0 ≤ NewGame.player.HP ∧ NewGame.player.HP ≤ NewGame.player.MaxHP) ∧
    (∀ b ∈ NewGame.bees, 0 ≤ b.HP ∧ b.HP ≤ b.MaxHP) ∧
    (∀ b ∈ NewGame.bees, b.HP = 0 → (b.TakeDamage).HP = 0) ∧
    (∀ d : Int, 0 ≤ d → NewGame.player.HP = 0 →
      (NewGame.player.TakeDamage d).HP = 0) :=
  claim_C8_health_clamped NewGame (Reachable.init DefaultConfig (by decide))

/-- Claim C10: across any sequence of core operations from a reachable
state, the player's health and every hive entity's health are
non-increasing (the heap keeps its size), and an entity whose health has
reached zero stays at zero health and dead. -/
theorem claim_C10_monotone_health (g g' : Game) (hr : Reachable g)
    (hs : Relation.ReflTransGen Step g g') :
    g'.player.HP ≤ g.player.HP ∧
    g'.bees.length = g.bees.length ∧
    (∀ id : Nat, (g'.beeAt id).HP ≤ (g.beeAt id).HP) ∧
    (∀ id : Nat, (g.beeAt id).HP = 0 →
      (g'.beeAt id).HP = 0 ∧ (g'.beeAt id).IsAlive = false) := by
  have hshr := steps_shrinks hr hs
  have hInv' := reachable_inv (reachable_steps hr hs)
  refine ⟨hshr.1, hshr.2.1, hshr.2.2, ?_⟩
  intro id h0
  have hle := hshr.2.2 id
  have hlo := hInv'.beeLo id
  have hhp : (g'.beeAt id).HP = 0 := by omega
  exact ⟨hhp, by simp [Bee.IsAlive, hhp]⟩

/-- Claim C10 witness: the default game is reachable and eliminating the
hive is one core operation; the monotonicity facts hold there. -/
theorem claim_C10_witness :
    (NewGame.KillAllBees).player.HP ≤ NewGame.player.HP ∧
    (NewGame.KillAllBees).bees.length = NewGame.bees.length ∧
    (∀ id : Nat, ((NewGame.KillAllBees).beeAt id).HP ≤ (NewGame.beeAt id).HP) ∧
    (∀ id : Nat, (NewGame.beeAt id).HP = 0 →
      ((NewGame.KillAllBees).beeAt id).HP = 0 ∧
      ((NewGame.KillAllBees).beeAt id).IsAlive = false) :=
  claim_C10_monotone_health NewGame NewGame.KillAllBees
    (Reachable.init DefaultConfig (by decide))
    (Relation.ReflTransGen.single (Step.killAllBees NewGame))

/-- Claim C1: over a non-empty snapshot of alive hostiles with one
decision record per hostile, exactly one outcome is applied — if some
record decided to hit, one hit record (the one selected by the uniform
index oracle) lands and the player's health is reduced exactly once by
that single bee's damage (no summing, no other record applied, no bee
mutated); if no record decided to hit, the player and the heap are
untouched. -/
theorem claim_C1_single_attack_lands (g : Game) (decisions : List Bool)
    (k : Nat) (halive : 0 < (g.GetAliveBees).1.length)
    (hlen : decisions.length = (g.GetAliveBees).1.length) :
    (0 < (hitIds (g.GetAliveBees).1 decisions).length →
      ∃ id : Nat, id ∈ hitIds (g.GetAliveBees).1 decisions ∧
        (g.BeeTurn decisions k).player.HP =
          max 0 (g.player.HP - (g.beeAt id).Damage) ∧
        (g.BeeTurn decisions k).bees = g.bees) ∧
    ((hitIds (g.GetAliveBees).1 decisions).length = 0 →
      (g.BeeTurn decisions k).player = g.player ∧
      (g.BeeTurn decisions k).bees = g.bees) := by
  constructor
  · intro hpos
    refine ⟨(hitIds (g.GetAliveBees).1 decisions).getD
        (k % (hitIds (g.GetAliveBees).1 decisions).length) 0,
      getD_mod_mem _ k hpos, ?_, beeTurn_bees g decisions k⟩
    have hplayer : (g.BeeTurn decisions k).player =
        (g.GetAliveBees).2.player.TakeDamage
          (((g.GetAliveBees).2.beeAt ((hitIds (g.GetAliveBees).1 decisions).getD
            (k % (hitIds (g.GetAliveBees).1 decisions).length) 0)).Damage) := by
      simp only [Game.BeeTurn]
      rw [if_neg (show ¬ (g.GetAliveBees).1.length = 0 by omega), if_pos hpos]
    rw [hplayer, playerTakeDamage_HP, getAlive_player, beeAt_GetAliveBees]
  · intro hzero
    have hres : g.BeeTurn decisions k = (g.GetAliveBees).2 := by
      simp only [Game.BeeTurn]
      rw [if_neg (show ¬ (g.GetAliveBees).1.length = 0 by omega),
        if_neg (show ¬ 0 < (hitIds (g.GetAliveBees).1 decisions).length by omega)]
    rw [hres]
    exact ⟨rfl, rfl⟩

/-- Claim C1 witness: on the fresh default game where all 31 hostiles
decide to hit, the hostile turn lands exactly one attack. -/
theorem claim_C1_witness :
    0 < (NewGame.GetAliveBees).1.length ∧
    (List.replicate 31 true).length = (NewGame.GetAliveBees).1.length ∧
    ((0 < (hitIds (NewGame.GetAliveBees).1 (List.replicate 31 true)).length →
      ∃ id : Nat, id ∈ hitIds (NewGame.GetAliveBees).1 (List.replicate 31 true) ∧
        (NewGame.BeeTurn (List.replicate 31 true) 0).player.HP =
          max 0 (NewGame.player.HP - (NewGame.beeAt id).Damage) ∧
        (NewGame.BeeTurn (List.replicate 31 true) 0).bees = NewGame.bees) ∧
    ((hitIds (NewGame.GetAliveBees).1 (List.replicate 31 true)).length = 0 →
      (NewGame.BeeTurn (List.replicate 31 true) 0).player = NewGame.player ∧
      (NewGame.BeeTurn (List.replicate 31 true) 0).bees = NewGame.bees)) :=
  ⟨by decide, by decide,
    claim_C1_single_attack_lands NewGame (List.replicate 31 true) 0
      (by decide) (by decide)⟩

/-- Claim C2: in any reachable state, a player attack whose selected
target is a Queen-category entity and reduces its health to zero is
immediately followed by the cascade: every hostile entity in the hive has
health zero and the alive view is empty; killing (or hitting) a non-Queen
target never modifies any other entity. -/
theorem claim_C2_queen_death_cascade (g : Game) (hr : Reachable g) (idx : Nat)
    (halive : 0 < (g.GetAliveBees).1.length) :
    ((g.beeAt ((g.GetAliveBees).1.getD
        (idx % (g.GetAliveBees).1.length) 0)).beeType = BeeType.Queen →
      (g.beeAt ((g.GetAliveBees).1.getD
        (idx % (g.GetAliveBees).1.length) 0)).HP ≤ 10 →
      (∀ id : Nat, id < (g.PlayerAttack false idx).bees.length →
        ((g.PlayerAttack false idx).beeAt id).HP = 0) ∧
      ((g.PlayerAttack false idx).GetAliveBees).1 = []) ∧
    ((g.beeAt ((g.GetAliveBees).1.getD
        (idx % (g.GetAliveBees).1.length) 0)).beeType ≠ BeeType.Queen →
      ∀ id : Nat,
        id ≠ (g.GetAliveBees).1.getD (idx % (g.GetAliveBees).1.length) 0 →
        (g.PlayerAttack false idx).beeAt id = g.beeAt id) := by
  have hInv := reachable_inv hr
  have h1 : Inv (g.GetAliveBees).2 := inv_getAlive g hInv
  constructor
  · intro hqueen hhp
    have h10 : (BeeStatsTable BeeType.Queen).TakesDamage = 10 := rfl
    have hdead : ((g.beeAt ((g.GetAliveBees).1.getD
        (idx % (g.GetAliveBees).1.length) 0)).TakeDamage).HP = 0 := by
      rw [Bee.takeDamage_HP, hqueen, h10]
      omega
    have htarget : ((g.beeAt ((g.GetAliveBees).1.getD
        (idx % (g.GetAliveBees).1.length) 0)).TakeDamage).IsAlive = false := by
      show decide (0 < ((g.beeAt ((g.GetAliveBees).1.getD
        (idx % (g.GetAliveBees).1.length) 0)).TakeDamage).HP) = false
      rw [hdead]
      rfl
    have hres : g.PlayerAttack false idx =
        ({ (g.GetAliveBees).2 with
            bees := (g.GetAliveBees).2.bees.set
              ((g.GetAliveBees).1.getD (idx % (g.GetAliveBees).1.length) 0)
              ((g.beeAt ((g.GetAliveBees).1.getD
                (idx % (g.GetAliveBees).1.length) 0)).TakeDamage) } :
          Game).KillAllBees := by
      simp only [Game.PlayerAttack, beeAt_GetAliveBees]
      rw [if_neg (show ¬ (g.GetAliveBees).1.length = 0 by omega)]
      rw [if_neg (show ¬ false = true by simp)]
      rw [htarget, if_neg Bool.false_ne_true, if_pos hqueen]
    refine ⟨?_, ?_⟩
    · intro id hid
      rw [hres] at hid ⊢
      rw [killAllBees_length] at hid
      exact killAllBees_beeAt_HP _ (inv_setDamaged (g.GetAliveBees).2 h1 _) id hid
    · rw [hres]
      rfl
  · intro hnq id hne
    have hgen : ({ (g.GetAliveBees).2 with
        bees := (g.GetAliveBees).2.bees.set
          ((g.GetAliveBees).1.getD (idx % (g.GetAliveBees).1.length) 0)
          ((g.beeAt ((g.GetAliveBees).1.getD
            (idx % (g.GetAliveBees).1.length) 0)).TakeDamage) } : Game).beeAt id
        = g.beeAt id := by
      show (((g.GetAliveBees).2.bees.set
          ((g.GetAliveBees).1.getD (idx % (g.GetAliveBees).1.length) 0)
          ((g.beeAt ((g.GetAliveBees).1.getD
            (idx % (g.GetAliveBees).1.length) 0)).TakeDamage))[id]?).getD dummyBee
        = g.beeAt id
      rw [List.getElem?_set_ne (fun h => hne h.symm)]
      rfl
    simp only [Game.PlayerAttack, beeAt_GetAliveBees]
    rw [if_neg (show ¬ (g.GetAliveBees).1.length = 0 by omega)]
    rw [if_neg (show ¬ false = true by simp)]
    split <;> exact hgen

/-- The default game after nine direct damage applications to the Queen
(heap id 0): her health is 10, one hit from death. -/
def queenWeak : Game :=
  ((((((((NewGame.ApplyDamageToBee 0).ApplyDamageToBee 0).ApplyDamageToBee
    0).ApplyDamageToBee 0).ApplyDamageToBee 0).ApplyDamageToBee
    0).ApplyDamageToBee 0).ApplyDamageToBee 0).ApplyDamageToBee 0

theorem queenWeak_reachable : Reachable queenWeak :=
  Reachable.step (Reachable.step (Reachable.step (Reachable.step
    (Reachable.step (Reachable.step (Reachable.step (Reachable.step
      (Reachable.step (Reachable.init DefaultConfig (by decide))
        (Step.applyDamageToBee _ 0)) (Step.applyDamageToBee _ 0))
      (Step.applyDamageToBee _ 0)) (Step.applyDamageToBee _ 0))
      (Step.applyDamageToBee _ 0)) (Step.applyDamageToBee _ 0))
      (Step.applyDamageToBee _ 0)) (Step.applyDamageToBee _ 0))
    (Step.applyDamageToBee _ 0)

/-- Claim C2 witness: with the Queen at 10 health in a reachable state,
the cascade consequences are instantiated for the attack selecting her. -/
theorem claim_C2_witness :
    0 < (queenWeak.GetAliveBees).1.length ∧
    (((queenWeak.beeAt ((queenWeak.GetAliveBees).1.getD
        (0 % (queenWeak.GetAliveBees).1.length) 0)).beeType = BeeType.Queen →
      (queenWeak.beeAt ((queenWeak.GetAliveBees).1.getD
        (0 % (queenWeak.GetAliveBees).1.length) 0)).HP ≤ 10 →
      (∀ id : Nat, id < (queenWeak.PlayerAttack false 0).bees.length →
        ((queenWeak.PlayerAttack false 0).beeAt id).HP = 0) ∧
      ((queenWeak.PlayerAttack false 0).GetAliveBees).1 = []) ∧
    ((queenWeak.beeAt ((queenWeak.GetAliveBees).1.getD
        (0 % (queenWeak.GetAliveBees).1.length) 0)).beeType ≠ BeeType.Queen →
      ∀ id : Nat,
        id ≠ (queenWeak.GetAliveBees).1.getD
          (0 % (queenWeak.GetAliveBees).1.length) 0 →
        (queenWeak.PlayerAttack false 0).beeAt id = queenWeak.beeAt id)) :=
  ⟨by decide, claim_C2_queen_death_cascade queenWeak queenWeak_reachable 0
    (by decide)⟩

/-- Claim C6: in every reachable state, `IsGameOver` returns true iff the
player's health is zero or no hive entity has positive health. -/
theorem claim_C6_game_over_iff (g : Game) (hr : Reachable g) :
    g.IsGameOver = true ↔ (g.player.HP = 0 ∨ ∀ b ∈ g.bees, b.HP ≤ 0) := by
  have hInv := reachable_inv hr
  simp only [Game.IsGameOver]
  by_cases hp : g.player.IsAlive
  · rw [if_pos hp]
    have hphp : 0 < g.player.HP := by simpa [Player.IsAlive] using hp
    rw [decide_eq_true_eq]
    constructor
    · intro hlen
      right
      intro b hb
      by_contra hposb
      push_neg at hposb
      obtain ⟨i, hi, rfl⟩ := List.mem_iff_getElem.mp hb
      have hmem : i ∈ g.aliveBees :=
        hInv.cacheComplete i hi (by rwa [beeAt_of_lt g i hi])
      have hin : i ∈ (g.GetAliveBees).1 :=
        (mem_GetAliveBees_fst g i).mpr ⟨hmem, by rwa [beeAt_of_lt g i hi]⟩
      rw [List.length_eq_zero] at hlen
      rw [hlen] at hin
      cases hin
    · intro h
      rcases h with h0 | hdead
      · omega
      · rw [List.length_eq_zero, GetAliveBees_fst, List.filter_eq_nil_iff]
        intro id hid
        have hlt := hInv.cacheValid id hid
        have hb := hdead _ (beeAt_mem g id hlt)
        simp only [Bee.isAlive_iff]
        omega
  · rw [if_neg hp]
    have hple : ¬ 0 < g.player.HP := by simpa [Player.IsAlive] using hp
    have hlo := hInv.playerLo
    have h0 : g.player.HP = 0 := by omega
    simp [h0]

/-- Claim C6 witness: the fresh default game is not over — its player has
100 health and 31 alive hostiles. -/
theorem claim_C6_witness :
    NewGame.IsGameOver = true ↔
      (NewGame.player.HP = 0 ∨ ∀ b ∈ NewGame.bees, b.HP ≤ 0) :=
  claim_C6_game_over_iff NewGame (Reachable.init DefaultConfig (by decide))

/-- Claim C9: in every reachable state, `GetAliveBees` returns exactly
the hive entities with strictly positive health (ids into the hostile
heap only — never the player), and the operation is idempotent: an
immediately repeated call returns the same list and the same state. -/
theorem claim_C9_alive_view_exact_idempotent (g : Game) (hr : Reachable g) :
    (∀ id : Nat, id ∈ (g.GetAliveBees).1 ↔
      (id < g.bees.length ∧ 0 < (g.beeAt id).HP)) ∧
    ((g.GetAliveBees).2.GetAliveBees = g.GetAliveBees) := by
  have hInv := reachable_inv hr
  constructor
  · intro id
    rw [mem_GetAliveBees_fst]
    constructor
    · rintro ⟨hmem, hpos⟩
      exact ⟨hInv.cacheValid id hmem, hpos⟩
    · rintro ⟨hlt, hpos⟩
      exact ⟨hInv.cacheComplete id hlt hpos, hpos⟩
  · have hfilter : (g.GetAliveBees).2.aliveBees.filter
        (fun id => ((g.GetAliveBees).2.beeAt id).IsAlive) =
        (g.GetAliveBees).1 := by
      show (g.aliveBees.filter (fun id => (g.beeAt id).IsAlive)).filter
        (fun id => (g.beeAt id).IsAlive) = _
      rw [List.filter_filter]
      simp [GetAliveBees_fst]
    refine Prod.ext ?_ ?_
    · exact hfilter
    · show ({ (g.GetAliveBees).2 with
        aliveBees := (g.GetAliveBees).2.aliveBees.filter
          (fun id => ((g.GetAliveBees).2.beeAt id).IsAlive) } : Game) =
        (g.GetAliveBees).2
      rw [hfilter]
      rfl

/-- Claim C9 witness: instantiated on the fresh default game. -/
theorem claim_C9_witness :
    (∀ id : Nat, id ∈ (NewGame.GetAliveBees).1 ↔
      (id < NewGame.bees.length ∧ 0 < (NewGame.beeAt id).HP)) ∧
    ((NewGame.GetAliveBees).2.GetAliveBees = NewGame.GetAliveBees) :=
  claim_C9_alive_view_exact_idempotent NewGame
    (Reachable.init DefaultConfig (by decide))

end BeesInATrap
